import Mathlib

/-
  Verification of the aten single-threaded I/O reactor and byte-stream
  framework.  The Rust sources are shallowly embedded: each stateful
  component becomes a Lean structure with pure transition functions that
  mirror the Rust control flow statement by statement.  Machine integers
  (u8, u64, u128, usize) are modelled as Nat; the f64 arithmetic of the
  pacer is modelled exactly over the rationals.  Wrapped upstream streams
  (wrappees) are modelled either as result scripts (a list of read
  results, consumed one per read call) or as abstract step functions.
-/

namespace Aten

/-- Error kinds produced by src/error/mod.rs and src/lib.rs. -/
inductive ErrKind where
  | again
  | badf
  | inval
  | proto
  | nospc
  | osErr (n : Nat)
deriving DecidableEq, Repr

/-- Result of one read call on a byte stream: either n bytes of data
(the empty list encodes EOF, Ok(0)) or an error. -/
abbrev RRes := Except ErrKind (List Nat)

/-- A scripted wrappee: a list of read results handed out one per call.
Reading truncates the data to the requested room (a stream never returns
more bytes than the buffer holds); an exhausted script blocks (EAGAIN). -/
def wsRead (w : List RRes) (req : Nat) : RRes × List RRes :=
  match w with
  | [] => (.error .again, [])
  | r :: rest =>
    match r with
    | .ok d => (.ok (d.take req), rest)
    | .error e => (.error e, rest)

/-! ## Event (src/lib.rs, EventState / Event::trigger / Event::perf)

The Event state machine of src/lib.rs lines 995-1068.  The body holds a
state (Idle / Triggered / Canceled) and an Option action; perf takes the
action out of the Option before invoking it.  Reaching a Rust
unreachable! branch is modelled as the result none. -/

namespace Event

inductive EState where
  | idle
  | triggered
  | canceled
deriving DecidableEq, Repr

structure M where
  state : EState
  hasAction : Bool
deriving DecidableEq, Repr

/-- Event::trigger (src/lib.rs lines 1025-1050).  Returns the new body
and whether a perf delivery was enqueued on the reactor (disk.execute). -/
def trigger (e : M) : M × Bool :=
  match e.state with
  | .idle => ({ e with state := .triggered }, true)
  | .triggered => (e, false)
  | .canceled => ({ e with state := .triggered }, false)

/-- Event::perf (src/lib.rs lines 1007-1023).  In state Triggered the
body moves to Idle and the action is taken out of its Option and
invoked; if the Option is already empty the Rust code executes
unreachable! (modelled as none).  The returned Bool records whether the
associated action was invoked. -/
def perf (e : M) : Option (M × Bool) :=
  match e.state with
  | .idle => none
  | .triggered =>
    if e.hasAction then
      some ({ state := .idle, hasAction := false }, true)
    else
      none
  | .canceled => some ({ e with state := .idle }, false)

end Event

/-! ## Trivial zero-length reads (src/stream/mod.rs macro read, base.rs,
queue.rs) -/

/-- base::StreamBody::read (src/stream/base.rs lines 46-52): Ok(0) for an
empty buffer, EAGAIN otherwise.  Used by every stream as the trivial-read
test. -/
def baseRead (buflen : Nat) : Except ErrKind Nat :=
  if buflen = 0 then .ok 0 else .error .again

/-- The read method generated by DECLARE_STREAM_NO_DROP
(src/stream/mod.rs lines 144-168): if base.read succeeds (zero-length
buffer) return Ok(0) at once, otherwise defer to the stream's
read_nontrivial.  The nontrivial part is abstract here. -/
def macroRead {σ : Type} (readNontrivial : σ → List Nat → Except ErrKind (List Nat) × σ)
    (st : σ) (buf : List Nat) : Except ErrKind (List Nat) × σ :=
  match baseRead buf.length with
  | .ok _ => (.ok [], st)
  | .error _ => readNontrivial st buf

/-! ## Reactor (Disk) scheduling (src/lib.rs) -/

namespace Disk

inductive TimerKind where
  | pending
  | scheduled
  | canceled
deriving DecidableEq, Repr

/-- A TimerBody (src/lib.rs lines 283-290): expiry instant (monotonic
nanoseconds), the process-unique UID, the kind, and whether the
Option action is still present. -/
structure TimerB where
  expires : Nat
  uid : Nat
  kind : TimerKind
  hasAction : Bool
deriving DecidableEq, Repr

/-- Strict lexicographic comparison of the (expires, uid) keys the
scheduled BTreeMap is ordered by. -/
def keyLt (a b : TimerB) : Prop :=
  a.expires < b.expires ∨ (a.expires = b.expires ∧ a.uid < b.uid)

instance (a b : TimerB) : Decidable (keyLt a b) := by
  unfold keyLt; infer_instance

/-- Lexicographic less-or-equal of the (expires, uid) keys. -/
def keyLE (a b : TimerB) : Prop :=
  keyLt a b ∨ (a.expires = b.expires ∧ a.uid = b.uid)

/-- The DiskBody state (src/lib.rs lines 357-366) restricted to the
fields the scheduler reads: the immediate FIFO, the scheduled timer
map (as its list of entries), the fd registration table (as the list of
registered fds) and the cached recent instant. -/
structure St where
  immediate : List TimerB
  timers : List TimerB
  regs : List Nat
  recent : Nat
deriving DecidableEq, Repr

/-- The first entry of the scheduled BTreeMap, i.e. the entry with the
minimum (expires, uid) key. -/
def minTimer : List TimerB → Option TimerB
  | [] => none
  | t :: ts =>
    match minTimer ts with
    | none => some t
    | some m => if keyLt m t then some m else some t

/-- Remove the scheduled-map entry with key (e, u). -/
def removeKey (e u : Nat) : List TimerB → List TimerB
  | [] => []
  | t :: ts => if t.expires = e ∧ t.uid = u then ts else t :: removeKey e u ts

/-- Look up the scheduled-map entry with key (e, u). -/
def findKey (e u : Nat) : List TimerB → Option TimerB
  | [] => none
  | t :: ts => if t.expires = e ∧ t.uid = u then some t else findKey e u ts

inductive NextStep where
  | immediateAction
  | timerExpired (expires uid : Nat)
  | nextTimerExpiry (expires : Nat)
  | infiniteWait
deriving DecidableEq, Repr

/-- Disk::next_step (src/lib.rs lines 499-525).  The for loop over the
BTreeMap only ever inspects the first (minimum-key) entry before
returning. -/
def nextStep (st : St) (now : Nat) : NextStep :=
  match minTimer st.timers with
  | some first =>
    match st.immediate with
    | front :: _ =>
      if keyLt first front then .timerExpired first.expires first.uid
      else .immediateAction
    | [] =>
      if first.expires ≤ now then .timerExpired first.expires first.uid
      else .nextTimerExpiry first.expires
  | none =>
    match st.immediate with
    | [] => .infiniteWait
    | _ :: _ => .immediateAction

/-- What Disk::pop_timer hands to its caller: an action to run
(identified by its timer's uid), the expiry of the nearest future
timer, or the report that the reactor holds no timers at all. -/
inductive Popped where
  | expired (uid : Nat)
  | nextExpiry (expires : Nat)
  | wait
deriving DecidableEq, Repr

/-- Disk::pop_timer (src/lib.rs lines 527-574).  Canceled pending timers
popped from the immediate FIFO are skipped silently (tombstones); a
popped timer with its action already gone reaches unreachable!
(modelled as none). -/
def popTimer : St → Nat → Option (Popped × St)
  | ⟨imm, tms, rg, rc⟩, now =>
    match nextStep ⟨imm, tms, rg, rc⟩ now with
    | .immediateAction =>
      match imm with
      | [] => none
      | t :: rest =>
        if t.kind = .canceled then
          popTimer ⟨rest, tms, rg, rc⟩ now
        else if t.hasAction then
          some (.expired t.uid, ⟨rest, tms, rg, rc⟩)
        else none
    | .timerExpired e u =>
      match findKey e u tms with
      | some t =>
        if t.hasAction then
          some (.expired t.uid, ⟨imm, removeKey e u tms, rg, rc⟩)
        else none
      | none => none
    | .nextTimerExpiry e => some (.nextExpiry e, ⟨imm, tms, rg, rc⟩)
    | .infiniteWait => some (.wait, ⟨imm, tms, rg, rc⟩)
termination_by st _ => st.immediate.length
decreasing_by simp

/-- The observable outcome of one Disk::poll call: the Result value, the
uid of the timer action that ran (if any), whether the fd multiplexer
was consulted (epoll_wait called by try_io), the fd whose Event was
triggered (if any), and the successor state. -/
structure PollRes where
  result : Option (Option Nat)
  ran : List Nat
  ioConsulted : Bool
  dispatched : List Nat
  post : St
deriving DecidableEq, Repr

/-- Disk::poll together with Disk::try_io (src/lib.rs lines 603-645).
ioReady models the epoll_wait(fd, 1 slot, timeout 0) outcome: none for
no ready event, some fd for one ready event.  Timer actions are opaque;
running one is recorded by its uid.  The none result marks a run that
reached unreachable! inside pop_timer. -/
def pollM (st : St) (now : Nat) (ioReady : Option Nat) : Option PollRes :=
  match popTimer st now with
  | none => none
  | some (.expired uid, st') =>
    some ⟨some (some now), [uid], false, [], { st' with recent := now }⟩
  | some (.nextExpiry e, st') =>
    match ioReady with
    | none => some ⟨some (some e), [], true, [], { st' with recent := now }⟩
    | some fd =>
      some ⟨some (some now), [], true,
            if fd ∈ st'.regs then [fd] else [], { st' with recent := now }⟩
  | some (.wait, st') =>
    some ⟨some none, [], false, [], { st' with recent := now }⟩

/-- MAX_IO_STARVATION (src/lib.rs line 654). -/
def MAX_IO_STARVATION : Nat := 20

/-- MAX_IO_BURST (src/lib.rs line 675). -/
def MAX_IO_BURST : Nat := 20

/-- The countdown loop of Disk::take_immediate_action (src/lib.rs lines
653-671), accumulating the uids of the actions it runs.  Returns the
executed uids together with Some next-wait instant or none for an
infinite wait, or none overall on an unreachable! inside pop_timer. -/
def takeImmAux : Nat → St → Nat → List Nat → Option (List Nat × Option Nat × St)
  | 0, st, now, acc => some (acc.reverse, some now, st)
  | c + 1, st, now, acc =>
    match popTimer st now with
    | none => none
    | some (.expired uid, st') => takeImmAux c st' now (uid :: acc)
    | some (.nextExpiry e, st') => some (acc.reverse, some e, st')
    | some (.wait, st') => some (acc.reverse, none, st')

/-- Disk::take_immediate_action. -/
def takeImmediate (st : St) (now : Nat) : Option (List Nat × Option Nat × St) :=
  takeImmAux MAX_IO_STARVATION st now []

/-- One iteration of the Disk::do_loop body (src/lib.rs lines 673-720):
drain immediate and due timers up to the starvation bound, then collect
up to MAX_IO_BURST ready fds from epoll_wait (the event buffer holds
MAX_IO_BURST slots) and trigger the Event of each registered one.
Returns the uids of the timer actions run and the fds dispatched. -/
def doLoopIter (st : St) (now : Nat) (ready : List Nat) :
    Option (List Nat × List Nat × St) :=
  match takeImmediate st now with
  | none => none
  | some (ran, _, st') =>
    some (ran, (ready.take MAX_IO_BURST).filter (· ∈ st'.regs), st')

end Disk

/-! ## Avid stream (src/stream/avid.rs) -/

namespace Avid

/-- The while loop of avid StreamBody::read_nontrivial
(src/stream/avid.rs lines 26-45) over a scripted wrappee: each wrappee
read requests the room left in the buffer; EOF ends the read with the
partial count; an error after progress also ends it with the partial
count (the error value is dropped); an error with no progress is
returned. -/
def avidLoop (w : List RRes) (buflen cursor : Nat) : Except ErrKind Nat × List RRes :=
  if cursor < buflen then
    match wsRead w (buflen - cursor) with
    | (.ok [], w') => (.ok cursor, w')
    | (.ok (b :: d), w') => avidLoop w' buflen (cursor + (b :: d).length)
    | (.error e, w') => if 0 < cursor then (.ok cursor, w') else (.error e, w')
  else (.ok cursor, w)
termination_by buflen - cursor
decreasing_by simp; omega

/-- Avid StreamBody::read_nontrivial. -/
def avidRead (w : List RRes) (buflen : Nat) : Except ErrKind Nat × List RRes :=
  avidLoop w buflen 0

end Avid

/-! ## Sub stream (src/stream/sub.rs) -/

namespace Sub

/-- The sub StreamBody fields read_nontrivial uses
(src/stream/sub.rs lines 20-28); u128 cursors become Nat. -/
structure St where
  begin : Nat
  stop : Option Nat
  exhaust : Bool
  cursor : Nat
deriving DecidableEq, Repr

/-- Sub StreamBody::read_nontrivial (src/stream/sub.rs lines 31-69) over
an abstract wrappee step function f (state σ, requested room ↦ result ×
new state), with fuel counting wrappee reads: the result none means the
call is still inside one of its internal loops when the fuel runs out.
The skip loop runs while cursor < begin, adding whatever count the
wrappee returns (zero included) to the cursor; the exhaust loop, entered
past the stop offset when exhaust is set, keeps reading until the
wrappee fails. -/
def subRead {σ : Type} (f : σ → Nat → RRes × σ) :
    Nat → St → σ → Nat → Option (Except ErrKind Nat × St × σ)
  | 0, _, _, _ => none
  | fuel + 1, st, s, buflen =>
    if st.cursor < st.begin then
      let room := min buflen (st.begin - st.cursor)
      match f s room with
      | (.ok d, s') => subRead f fuel { st with cursor := st.cursor + d.length } s' buflen
      | (.error e, s') => some (.error e, st, s')
    else
      match st.stop with
      | some e =>
        if st.cursor < e then
          let room := min buflen (e - st.cursor)
          match f s room with
          | (.ok d, s') =>
            some (.ok d.length, { st with cursor := st.cursor + d.length }, s')
          | (.error er, s') => some (.error er, st, s')
        else if st.exhaust then
          match f s buflen with
          | (.ok _, s') => subRead f fuel st s' buflen
          | (.error er, s') => some (.error er, st, s')
        else some (.ok 0, st, s)
      | none =>
        match f s buflen with
        | (.ok d, s') => some (.ok d.length, st, s')
        | (.error e, s') => some (.error e, st, s')

end Sub

/-! ## Reservoir stream (src/stream/reservoir.rs) -/

namespace Reservoir

/-- The filling loop of reservoir StreamBody::read_nontrivial
(src/stream/reservoir.rs lines 35-62) over a scripted wrappee.  Returns
(outcome, amount, storage, remaining script, eofReached): outcome ok
means the wrappee reported EOF, the storage queue was terminated and the
read proceeds from storage; every wrappee chunk is appended to storage
and counted into amount before the overflow check runs again.  The
wrappee is read through a 2000-byte stack chunk. -/
def resFill (capacity : Nat) :
    Nat → List (List Nat) → List RRes →
    Except ErrKind Unit × Nat × List (List Nat) × List RRes × Bool
  | amount, storage, w =>
    if capacity < amount then (.error .nospc, amount, storage, w, false)
    else
      match w with
      | [] => (.error .again, amount, storage, [], false)
      | r :: rest =>
        match r with
        | .ok [] => (.ok (), amount, storage, rest, true)
        | .ok (b :: d) =>
          resFill capacity (amount + (b :: d).length) (storage ++ [b :: d]) rest
        | .error e => (.error e, amount, storage, rest, false)
termination_by _ _ w => w.length

end Reservoir

/-! ## Pacer stream (src/stream/pacer.rs)

The Rust body computes with f64; the model computes exactly over ℚ
(times in seconds, rates in bytes per second). -/

namespace Pacer

/-- The pacer StreamBody fields read_nontrivial uses
(src/stream/pacer.rs lines 21-33); the retry timer is represented by its
scheduled expiry. -/
structure St where
  quota : ℚ
  byterate : ℚ
  minBurst : ℚ
  maxBurst : ℚ
  prevTime : ℚ
  retryAt : Option ℚ
deriving DecidableEq, Repr

/-- Pacer Stream::new validation (src/stream/pacer.rs lines 88-113):
construction is rejected with the invalid kind when byterate ≤ 0,
min_burst < 1 or max_burst < min_burst. -/
def pacerNew (byterate : ℚ) (minBurst maxBurst : Nat) (now : ℚ) :
    Except ErrKind St :=
  if byterate ≤ 0 ∨ minBurst < 1 ∨ maxBurst < minBurst then .error .inval
  else .ok ⟨0, byterate, (minBurst : ℚ), (maxBurst : ℚ), now, none⟩

/-- Pacer StreamBody::read_nontrivial (src/stream/pacer.rs lines 36-77)
over a scripted wrappee: credit quota by elapsed time times byterate,
clamp at max_burst, set prev_time to now; below min_burst schedule a
retry at now + (min_burst - quota) / byterate and fail with EAGAIN;
otherwise read min(buflen, quota as usize) bytes from the wrappee and
debit quota by the count actually read. -/
def pacerRead (st : St) (now : ℚ) (w : List RRes) (buflen : Nat) :
    Except ErrKind Nat × St × List RRes :=
  let q1 := st.quota + (now - st.prevTime) * st.byterate
  let q2 := if q1 > st.maxBurst then st.maxBurst else q1
  if q2 < st.minBurst then
    let delay := (st.minBurst - q2) / st.byterate
    (.error .again,
     { st with quota := q2, prevTime := now, retryAt := some (now + delay) }, w)
  else
    let count := min buflen (⌊q2⌋.toNat)
    match wsRead w count with
    | (.ok d, w') =>
      (.ok d.length,
       { st with quota := q2 - (d.length : ℚ), prevTime := now, retryAt := none }, w')
    | (.error e, w') =>
      (.error e, { st with quota := q2, prevTime := now, retryAt := none }, w')

end Pacer

/-! ## Queue stream (src/stream/queue.rs) -/

namespace Queue

/-- The queue StreamBody fields its read uses (src/stream/queue.rs lines
13-20): the wrappee queue (each wrappee a result script), the terminated
flag and the latched pending error. -/
structure St where
  heads : List (List RRes)
  terminated : Bool
  pendingError : Option ErrKind
deriving Repr

/-- The while-let loop of queue read (src/stream/queue.rs lines 33-58):
drain the head wrappee into the buffer, popping heads at their EOF;
EAGAIN with progress ends the round quietly, another error with progress
is latched into pending_error; any error without progress is returned.
Fuel bounds the loop; none means the fuel ran out. -/
def qLoop : Nat → List (List RRes) → Nat → List Nat →
    Option (List (List RRes) × Option ErrKind × List Nat × Option ErrKind)
  | 0, _, _, _ => none
  | fuel + 1, heads, buflen, acc =>
    match heads with
    | [] => some ([], none, acc, none)
    | head :: rest =>
      if acc.length ≥ buflen then some (heads, none, acc, none)
      else
        match wsRead head (buflen - acc.length) with
        | (.error e, head') =>
          if acc.length = 0 then some (head' :: rest, none, acc, some e)
          else if e = .again then some (head' :: rest, none, acc, none)
          else some (head' :: rest, some e, acc, none)
        | (.ok [], _) => qLoop fuel rest buflen acc
        | (.ok (b :: d), head') => qLoop fuel (head' :: rest) buflen (acc ++ (b :: d))

/-- Queue read (src/stream/queue.rs lines 23-72): the trivial-read
shortcut through base.read comes first, then the latched pending error
is taken and returned, then the drain loop runs; an empty round yields
Ok(0) when terminated and EAGAIN otherwise. -/
def queueRead (fuel : Nat) (st : St) (buflen : Nat) :
    Option (Except ErrKind (List Nat) × St) :=
  match baseRead buflen with
  | .ok _ => some (.ok [], st)
  | .error _ =>
    match st.pendingError with
    | some e => some (.error e, { st with pendingError := none })
    | none =>
      match qLoop fuel st.heads buflen [] with
      | none => none
      | some (heads', latched, acc, immediateErr) =>
        match immediateErr with
        | some e => some (.error e, { st with heads := heads' })
        | none =>
          let st' : St := { st with heads := heads', pendingError := latched }
          if 0 < acc.length then some (.ok acc, st')
          else if st.terminated then some (.ok [], st')
          else some (.error .again, st')

end Queue

/-! ## Naive encoder (src/stream/naiveencoder.rs)

The encoder pulls raw bytes from its wrappee through an internal
2000-byte buffer (the low..high window, modelled by the pending list),
escapes terminator and escape occurrences when an escape byte is
configured, and emits a single trailing terminator at wrappee EOF.  The
wrappee here is a blob stream over the remaining source bytes
(src/stream/blob.rs: a read copies out up to the requested room and
advances the cursor, Ok(0) at the end). -/

namespace Naive

inductive EncState where
  | reading
  | escaped
  | exhausted
  | terminated
deriving DecidableEq, Repr

structure EncSt where
  st : EncState
  pending : List Nat
  term : Nat
  esc : Option Nat
deriving DecidableEq, Repr

/-- Whether StreamBody::encode escapes the byte b
(src/stream/naiveencoder.rs lines 79-87). -/
def needsEsc (term : Nat) (esc : Option Nat) (b : Nat) : Bool :=
  match esc with
  | none => false
  | some e => b == e || b == term

/-- The copying loop of StreamBody::encode (src/stream/naiveencoder.rs
lines 51-92) given the output room left: returns the bytes written, the
bytes still pending and whether the loop stopped halfway through an
escape sequence (buffer filled by the escape byte, literal still
pending, state Escaped). -/
def encLoop (term : Nat) (esc : Option Nat) :
    List Nat → Nat → List Nat × List Nat × Bool
  | pending, 0 => ([], pending, false)
  | [], _ + 1 => ([], [], false)
  | b :: rest, room + 1 =>
    if needsEsc term esc b then
      match esc with
      | some e =>
        if room = 0 then ([e], b :: rest, true)
        else
          let r := encLoop term esc rest (room - 1)
          (e :: b :: r.1, r.2.1, r.2.2)
      | none =>
        let r := encLoop term esc rest room
        (b :: r.1, r.2.1, r.2.2)
    else
      let r := encLoop term esc rest room
      (b :: r.1, r.2.1, r.2.2)

/-- The tail of StreamBody::encode around the loop
(src/stream/naiveencoder.rs lines 56-76): when the window empties with
nothing written yet, refill it from the wrappee blob (2000-byte reads);
at wrappee EOF write the single trailing terminator and move to
Terminated.  preOut holds the literal byte emitted by the Escaped entry
path.  Returns (bytes written, encoder state, pending, remaining
source). -/
def encReadAux (term : Nat) (esc : Option Nat) :
    List Nat → List Nat → Nat → List Nat →
    List Nat × EncState × List Nat × List Nat
  | pending, src, room, preOut =>
    let r := encLoop term esc pending room
    let out := preOut ++ r.1
    if r.2.2 then (out, .escaped, r.2.1, src)
    else if out ≠ [] ∨ r.2.1 ≠ [] then (out, .reading, r.2.1, src)
    else
      match src with
      | [] => ([term], .terminated, [], [])
      | s :: srest => encReadAux term esc ((s :: srest).take 2000)
                        ((s :: srest).drop 2000) room []
termination_by _ src _ _ => src.length
decreasing_by simp [List.length_drop]; omega

/-- Encoder read (StreamBody::read_nontrivial plus encode,
src/stream/naiveencoder.rs lines 43-109) for a buffer of n bytes:
returns the bytes written, the new encoder state and the remaining
source.  In state Escaped the pending literal is written first; in state
Exhausted the trailing terminator is written; in state Terminated the
read yields Ok(0). -/
def encRead (e : EncSt) (src : List Nat) (n : Nat) :
    List Nat × EncSt × List Nat :=
  match e.st with
  | .terminated => ([], e, src)
  | .exhausted => ([e.term], { e with st := .terminated }, src)
  | .reading =>
    let r := encReadAux e.term e.esc e.pending src n []
    (r.1, { e with st := r.2.1, pending := r.2.2.1 }, r.2.2.2)
  | .escaped =>
    match e.pending with
    | [] => ([], e, src)
    | b :: rest =>
      let r := encReadAux e.term e.esc rest src (n - 1) [b]
      (r.1, { e with st := r.2.1, pending := r.2.2.1 }, r.2.2.2)

/-! ## Naive decoder (src/stream/naivedecoder.rs)

The decoder reads a chunk from its wrappee into the caller's buffer and
decodes it in place.  The crucial detail for the remainder is that after
consuming the terminator at index ri the code compares ri against
buf.len() (not against the wrappee count) and, when they differ,
enqueues a blob of buf[ri..] — the whole rest of the caller's buffer,
including the positions beyond the freshly read count that still hold
stale caller bytes — in front of the wrappee as the remainder stream. -/

inductive DecState where
  | reading
  | escaped
  /-- Terminated keeps the blob of buffer bytes that precedes the
  wrappee in the remainder queue. -/
  | terminated (stale : List Nat)
  | errored
deriving DecidableEq, Repr

/-- One outcome of the decode loop: all count bytes consumed (state back
to Reading), consumed up to a trailing escape byte (state Escaped), or
terminator found with the given blob bytes for the remainder. -/
inductive DecRes where
  | more (acc : List Nat)
  | escTail (acc : List Nat)
  | done (acc : List Nat) (stale : List Nat)
deriving DecidableEq, Repr

/-- The loop of StreamBody::decode (src/stream/naivedecoder.rs lines
48-83).  rest is the not-yet-consumed part of the freshly read chunk
(positions ri..count of the buffer), beyond the buffer positions from
count to buf.len() that the wrappee read did not overwrite, and acc the
decoded bytes written so far. -/
def decLoop (term : Nat) (esc : Option Nat) :
    List Nat → List Nat → List Nat → DecRes
  | [], _, acc => .more acc
  | b :: rest, beyond, acc =>
    if b = term then
      match rest, beyond with
      | [], [] => .done acc []
      | _, _ => .done acc (rest ++ beyond)
    else
      match esc with
      | some e =>
        if b = e then
          match rest with
          | [] => .escTail acc
          | c :: rest' => decLoop term esc rest' beyond (acc ++ [c])
        else decLoop term esc rest beyond (acc ++ [b])
      | none => decLoop term esc rest beyond (acc ++ [b])

/-- Decoder read (StreamBody::read_nontrivial plus decode,
src/stream/naivedecoder.rs lines 39-109) stacked directly on the
encoder: dst is the decoder state, e/src the wrappee encoder and its
source, and prevBuf the caller's buffer with its contents before the
call (its length is the read size).  Returns the read result, the new
decoder and encoder states, the remaining source and the buffer contents
after the call.  A chunk fully consumed without output loops back into
read (fuel-bounded); wrappee EOF before the terminator latches Errored
and fails with the protocol kind. -/
def decRead (term : Nat) (esc : Option Nat) (fuel : Nat) (dst : DecState)
    (e : EncSt) (src : List Nat) (prevBuf : List Nat) :
    Option (Except ErrKind (List Nat) × DecState × EncSt × List Nat × List Nat) :=
  match fuel with
  | 0 => none
  | fuel + 1 =>
    match dst with
    | .terminated stale => some (.ok [], .terminated stale, e, src, prevBuf)
    | .errored => some (.error .proto, .errored, e, src, prevBuf)
    | .reading | .escaped =>
      match encRead e src prevBuf.length with
      | ([], e', src') => some (.error .proto, .errored, e', src', prevBuf)
      | (c :: chunk, e', src') =>
        let postRead := (c :: chunk) ++ prevBuf.drop (c :: chunk).length
        let beyond := prevBuf.drop (c :: chunk).length
        let start := if dst = .escaped then ([c], chunk) else ([], c :: chunk)
        match decLoop term esc start.2 beyond start.1 with
        | .more acc =>
          if acc = [] then decRead term esc fuel .reading e' src' postRead
          else some (.ok acc, .reading, e', src', acc ++ postRead.drop acc.length)
        | .escTail acc =>
          if acc = [] then decRead term esc fuel .escaped e' src' postRead
          else some (.ok acc, .escaped, e', src', acc ++ postRead.drop acc.length)
        | .done acc stale =>
          some (.ok acc, .terminated stale, e', src', acc ++ postRead.drop acc.length)

end Naive

/-! ## Claim theorems -/

/-- C1: the claim says the Idle → Triggered → perf cycle of an Event can
repeat indefinitely, invoking the associated action each time without
panicking or reaching an unreachable branch.  The code falsifies this at
the second cycle: the first trigger and perf behave as claimed (action
invoked, state back to Idle), but perf consumes the action with
Option::take, so the second perf in state Triggered finds no action and
executes the unreachable! branch (modelled as none). -/
theorem event_trigger_perf_second_cycle_panics :
    Event.trigger ⟨.idle, true⟩ = (⟨.triggered, true⟩, true) ∧
    Event.perf ⟨.triggered, true⟩ = some (⟨.idle, false⟩, true) ∧
    Event.trigger ⟨.idle, false⟩ = (⟨.triggered, false⟩, true) ∧
    Event.perf ⟨.triggered, false⟩ = none :=
  ⟨rfl, rfl, rfl, rfl⟩

/-- C7: reading with a zero-length buffer returns Ok(0) and changes no
observable stream state: the macro-generated read answers through the
base trivial-read shortcut without calling read_nontrivial, and the
queue read takes the same shortcut before its latched pending error is
even looked at, so the error is neither consumed nor surfaced. -/
theorem zero_length_read_is_pure :
    ∀ {σ : Type} (f : σ → List Nat → Except ErrKind (List Nat) × σ) (st : σ)
      (fuel : Nat) (q : Queue.St),
    macroRead f st [] = (.ok [], st) ∧
    Queue.queueRead fuel q 0 = some (.ok [], q) :=
  fun _ _ _ _ => ⟨rfl, rfl⟩

/-- C3 counterexample: with one registered file descriptor (fd 7, even
ready) and no timers at all, Disk::poll returns Ok(None) directly from
the InfiniteWait branch of pop_timer without ever consulting the fd
multiplexer, contradicting the claim that poll does not report idle
without consulting the multiplexer while file descriptors are
registered. -/
theorem poll_reports_idle_without_consulting_multiplexer :
    Disk.pollM ⟨[], [], [7], 0⟩ 5 (some 7) =
      some ⟨some none, [], false, [], ⟨[], [], [7], 5⟩⟩ ∧
    ([7] : List Nat) ≠ [] := by
  refine ⟨?_, by decide⟩
  simp [Disk.pollM, Disk.popTimer, Disk.nextStep, Disk.minTimer]

/-- C2: the decoder stacked on the encoder does reproduce the source
bytes (here B = [65] comes back as [65] followed by Ok(0)), but after
the final EOF the remainder is not empty for a 2-byte read buffer: the
terminator arrives as a standalone 1-byte chunk, ri = 1 differs from
buf.len() = 2, and the code enqueues blob(buf[1..]) — a stale byte of
the caller's buffer — so the remainder stream yields one byte before its
EOF. -/
theorem naive_decoder_remainder_holds_stale_byte :
    Naive.decRead 0 none 5 .reading ⟨.reading, [], 0, none⟩ [65] [0, 0] =
      some (.ok [65], .reading, ⟨.reading, [], 0, none⟩, [], [65, 0]) ∧
    Naive.decRead 0 none 5 .reading ⟨.reading, [], 0, none⟩ [] [65, 0] =
      some (.ok [], .terminated [0], ⟨.terminated, [], 0, none⟩, [], [0, 0]) ∧
    ([0] : List Nat) ≠ [] := by
  refine ⟨?_, ?_, by decide⟩ <;>
    simp [Naive.decRead, Naive.encRead, Naive.encReadAux, Naive.encLoop,
          Naive.decLoop, Naive.needsEsc]

/-- A nonempty timer map has a minimum entry. -/
theorem minTimer_ne_none (t : Disk.TimerB) (ts : List Disk.TimerB) :
    Disk.minTimer (t :: ts) ≠ none := by
  unfold Disk.minTimer
  cases h : Disk.minTimer ts with
  | none => simp
  | some m => simp only []; split <;> simp

/-- The timer map has no minimum entry exactly when it is empty. -/
theorem minTimer_eq_none_iff (l : List Disk.TimerB) :
    Disk.minTimer l = none ↔ l = [] := by
  cases l with
  | nil => simp [Disk.minTimer]
  | cons t ts =>
    exact ⟨fun h => absurd h (minTimer_ne_none t ts), fun h => by simp at h⟩

/-- The scheduled-timer branch of pop_timer never produces the
no-timers report. -/
theorem findKey_branch_ne_wait (e u : Nat) (imm tms : List Disk.TimerB)
    (rg : List Nat) (rc : Nat) (st' : Disk.St) :
    (match Disk.findKey e u tms with
     | some t =>
       if t.hasAction then
         some (Disk.Popped.expired t.uid,
               (⟨imm, Disk.removeKey e u tms, rg, rc⟩ : Disk.St))
       else none
     | none => none) ≠ some (.wait, st') := by
  cases hfk : Disk.findKey e u tms with
  | none => simp
  | some t => simp only []; split <;> simp

/-- pop_timer, destructured: it ends in the no-timers report exactly
when the scheduled map is empty and the immediate FIFO holds only
canceled tombstones. -/
theorem popTimer_wait_aux :
    ∀ (imm tms : List Disk.TimerB) (rg : List Nat) (rc now : Nat),
    (∃ st', Disk.popTimer ⟨imm, tms, rg, rc⟩ now = some (.wait, st')) ↔
      (tms = [] ∧ ∀ t ∈ imm, t.kind = .canceled) := by
  intro imm
  induction imm with
  | nil =>
    intro tms rg rc now
    cases hmt : Disk.minTimer tms with
    | none =>
      have htm : tms = [] := (minTimer_eq_none_iff tms).mp hmt
      subst htm
      simp [Disk.popTimer, Disk.nextStep, Disk.minTimer]
    | some fb =>
      have htm : tms ≠ [] := by
        intro hn; rw [hn] at hmt; simp [Disk.minTimer] at hmt
      refine iff_of_false ?_ (by simp [htm])
      rintro ⟨st', hst⟩
      simp only [Disk.popTimer, Disk.nextStep, hmt] at hst
      split at hst
      · simp at hst
      · exact absurd hst (findKey_branch_ne_wait _ _ _ _ _ _ _)
      · simp at hst
      · rename_i heq
        split at heq <;> simp at heq
  | cons t rest ih =>
    intro tms rg rc now
    cases hmt : Disk.minTimer tms with
    | some fb =>
      have htm : tms ≠ [] := by
        intro hn; rw [hn] at hmt; simp [Disk.minTimer] at hmt
      refine iff_of_false ?_ (by simp [htm])
      rintro ⟨st', hst⟩
      simp only [Disk.popTimer, Disk.nextStep, hmt] at hst
      split at hst
      · split at hst
        · exact htm ((ih tms rg rc now).mp ⟨st', hst⟩).1
        · split at hst <;> simp at hst
      · exact absurd hst (findKey_branch_ne_wait _ _ _ _ _ _ _)
      · simp at hst
      · rename_i heq
        split at heq <;> simp at heq
    | none =>
      have htm : tms = [] := (minTimer_eq_none_iff tms).mp hmt
      subst htm
      by_cases hcanc : t.kind = .canceled
      · have hstep : Disk.popTimer ⟨t :: rest, [], rg, rc⟩ now =
            Disk.popTimer ⟨rest, [], rg, rc⟩ now := by
          simp [Disk.popTimer, Disk.nextStep, Disk.minTimer, hcanc]
        rw [hstep, ih [] rg rc now]
        simp [hcanc]
      · refine iff_of_false ?_ (by simp [hcanc])
        rintro ⟨st', hst⟩
        simp [Disk.popTimer, Disk.nextStep, Disk.minTimer, hcanc] at hst

/-- pop_timer reports the no-timers outcome exactly when the scheduled
map is empty and every immediate timer is a canceled tombstone. -/
theorem popTimer_wait_iff (st : Disk.St) (now : Nat) :
    (∃ st', Disk.popTimer st now = some (.wait, st')) ↔
      (st.timers = [] ∧ ∀ t ∈ st.immediate, t.kind = .canceled) := by
  obtain ⟨imm, tms, rg, rc⟩ := st
  exact popTimer_wait_aux imm tms rg rc now

/-- pop_timer, destructured: a next-expiry report always stems from the
minimum scheduled entry lying strictly in the future. -/
theorem popTimer_nextExpiry_aux :
    ∀ (imm tms : List Disk.TimerB) (rg : List Nat) (rc now e : Nat)
      (st' : Disk.St),
    Disk.popTimer ⟨imm, tms, rg, rc⟩ now = some (.nextExpiry e, st') →
    ∃ fb, Disk.minTimer tms = some fb ∧ now < fb.expires ∧ e = fb.expires := by
  intro imm
  induction imm with
  | nil =>
    intro tms rg rc now e st' h
    cases hmt : Disk.minTimer tms with
    | none =>
      have htm : tms = [] := (minTimer_eq_none_iff tms).mp hmt
      subst htm
      simp [Disk.popTimer, Disk.nextStep, Disk.minTimer] at h
    | some fb =>
      simp only [Disk.popTimer, Disk.nextStep, hmt] at h
      split at h
      · simp at h
      · rename_i e0 u0 heq
        cases hfk : Disk.findKey e0 u0 tms with
        | none => simp only [hfk] at h; simp at h
        | some tt => simp only [hfk] at h; split at h <;> simp at h
      · rename_i e0 heq
        split at heq
        · simp at heq
        · rename_i hle
          simp only [Disk.NextStep.nextTimerExpiry.injEq] at heq
          simp only [Option.some.injEq, Prod.mk.injEq,
                     Disk.Popped.nextExpiry.injEq] at h
          obtain ⟨he, -⟩ := h
          refine ⟨fb, by simp [hmt], by omega, by omega⟩
      · simp at h
  | cons t rest ih =>
    intro tms rg rc now e st' h
    cases hmt : Disk.minTimer tms with
    | some fb =>
      simp only [Disk.popTimer, Disk.nextStep, hmt] at h
      split at h
      · split at h
        · obtain ⟨fb2, h1, h2, h3⟩ := ih tms rg rc now e st' h
          rw [hmt] at h1
          exact ⟨fb2, h1, h2, h3⟩
        · split at h <;> simp at h
      · rename_i e0 u0 heq
        cases hfk : Disk.findKey e0 u0 tms with
        | none => simp only [hfk] at h; simp at h
        | some tt => simp only [hfk] at h; split at h <;> simp at h
      · rename_i e0 heq
        split at heq <;> simp at heq
      · simp at h
    | none =>
      have htm : tms = [] := (minTimer_eq_none_iff tms).mp hmt
      subst htm
      simp only [Disk.popTimer, Disk.nextStep, Disk.minTimer] at h
      split at h
      · exact ih [] rg rc now e st' h
      · split at h <;> simp at h

/-- pop_timer reports a next expiry only when the minimum scheduled
entry lies strictly in the future. -/
theorem popTimer_nextExpiry_future (st : Disk.St) (now e : Nat)
    (st' : Disk.St)
    (h : Disk.popTimer st now = some (.nextExpiry e, st')) :
    ∃ fb, Disk.minTimer st.timers = some fb ∧ now < fb.expires := by
  obtain ⟨imm, tms, rg, rc⟩ := st
  obtain ⟨fb, h1, h2, -⟩ := popTimer_nextExpiry_aux imm tms rg rc now e st' h
  exact ⟨fb, h1, h2⟩

/-- C3 amended: every poll call performs exactly one step — it runs at
most one timer action and dispatches at most one fd Event; it consults
the fd multiplexer (try_io with timeout 0) only when the minimum
scheduled entry lies strictly in the future; and it returns Ok(None)
exactly when no scheduled timer exists and the immediate FIFO holds only
canceled tombstones, in which case the multiplexer is never consulted —
even while file descriptors remain registered. -/
theorem poll_one_step (st : Disk.St) (now : Nat) (io : Option Nat)
    (r : Disk.PollRes) (h : Disk.pollM st now io = some r) :
    r.ran.length ≤ 1 ∧ r.dispatched.length ≤ 1 ∧
    (r.result = some none ↔
      st.timers = [] ∧ ∀ t ∈ st.immediate, t.kind = .canceled) ∧
    (r.result = some none → r.ioConsulted = false) ∧
    (r.ioConsulted = true →
      ∃ fb, Disk.minTimer st.timers = some fb ∧ now < fb.expires) := by
  unfold Disk.pollM at h
  cases hp : Disk.popTimer st now with
  | none => rw [hp] at h; simp at h
  | some p =>
    rw [hp] at h
    match p with
    | (.expired uid, st') =>
      simp at h
      subst h
      refine ⟨by simp, by simp, ?_, by simp, by simp⟩
      simp only [iff_false, false_iff]
      constructor
      · simp
      · intro hw
        obtain ⟨st2, hst2⟩ := (popTimer_wait_iff st now).mpr hw
        rw [hp] at hst2
        simp at hst2
    | (.nextExpiry e, st') =>
      match io with
      | none =>
        simp at h
        subst h
        refine ⟨by simp, by simp, ?_, by simp, ?_⟩
        · constructor
          · simp
          · intro hw
            obtain ⟨st2, hst2⟩ := (popTimer_wait_iff st now).mpr hw
            rw [hp] at hst2
            simp at hst2
        · intro _
          exact popTimer_nextExpiry_future st now e st' hp
      | some fd =>
        simp at h
        subst h
        refine ⟨by simp, by split <;> simp, ?_, by simp, ?_⟩
        · constructor
          · simp
          · intro hw
            obtain ⟨st2, hst2⟩ := (popTimer_wait_iff st now).mpr hw
            rw [hp] at hst2
            simp at hst2
        · intro _
          exact popTimer_nextExpiry_future st now e st' hp
    | (.wait, st') =>
      simp at h
      subst h
      refine ⟨by simp, by simp, ?_, by simp, by simp⟩
      simp only [true_iff]
      exact (popTimer_wait_iff st now).mp ⟨st', hp⟩

/-- C3 amended witness: the idle-with-registered-fd state instantiates
the amended poll description: result Ok(None), no action run, no fd
dispatched, multiplexer not consulted. -/
theorem poll_one_step_witness :
    (Disk.PollRes.mk (some none) [] false [] ⟨[], [], [7], 5⟩).ran.length ≤ 1 ∧
    (Disk.PollRes.mk (some none) [] false [] ⟨[], [], [7], 5⟩).dispatched.length ≤ 1 ∧
    ((Disk.PollRes.mk (some none) [] false [] ⟨[], [], [7], 5⟩).result = some none ↔
      (Disk.St.mk [] [] [7] 0).timers = [] ∧
      ∀ t ∈ (Disk.St.mk [] [] [7] 0).immediate, t.kind = .canceled) ∧
    ((Disk.PollRes.mk (some none) [] false [] ⟨[], [], [7], 5⟩).result = some none →
      (Disk.PollRes.mk (some none) [] false [] ⟨[], [], [7], 5⟩).ioConsulted = false) ∧
    ((Disk.PollRes.mk (some none) [] false [] ⟨[], [], [7], 5⟩).ioConsulted = true →
      ∃ fb, Disk.minTimer (Disk.St.mk [] [] [7] 0).timers = some fb ∧
        5 < fb.expires) :=
  poll_one_step ⟨[], [], [7], 0⟩ 5 (some 7) ⟨some none, [], false, [], ⟨[], [], [7], 5⟩⟩
    (by simp [Disk.pollM, Disk.popTimer, Disk.nextStep, Disk.minTimer])

/-- C5: the next_step selection.  With the system invariant that
distinct timers carry distinct UIDs, when both a scheduled timer and a
front immediate timer exist the one with the smaller (expires, uid) key
is selected and a tie goes to the scheduled timer (vacuously, since a
tie would force equal UIDs); with only scheduled timers the earliest
runs when due and is otherwise reported as the next expiry; with only
immediate timers the FIFO front runs; with neither, InfiniteWait. -/
theorem next_step_selection (st : Disk.St) (now : Nat) :
    (∀ fb, Disk.minTimer st.timers = some fb →
      (∀ front rest, st.immediate = front :: rest → fb.uid ≠ front.uid →
        (Disk.keyLE fb front →
          Disk.nextStep st now = .timerExpired fb.expires fb.uid) ∧
        (Disk.keyLt front fb → Disk.nextStep st now = .immediateAction)) ∧
      (st.immediate = [] →
        (fb.expires ≤ now →
          Disk.nextStep st now = .timerExpired fb.expires fb.uid) ∧
        (now < fb.expires →
          Disk.nextStep st now = .nextTimerExpiry fb.expires))) ∧
    (Disk.minTimer st.timers = none → st.immediate ≠ [] →
      Disk.nextStep st now = .immediateAction) ∧
    (Disk.minTimer st.timers = none → st.immediate = [] →
      Disk.nextStep st now = .infiniteWait) := by
  refine ⟨?_, ?_, ?_⟩
  · intro fb hfb
    constructor
    · intro front rest himm huid
      constructor
      · intro hle
        have hlt : Disk.keyLt fb front := by
          rcases hle with h | ⟨_, hu⟩
          · exact h
          · exact absurd hu huid
        simp [Disk.nextStep, hfb, himm, hlt]
      · intro hlt
        have hnlt : ¬ Disk.keyLt fb front := by
          unfold Disk.keyLt at hlt ⊢; omega
        simp [Disk.nextStep, hfb, himm, hnlt]
    · intro himm
      constructor
      · intro hex
        simp [Disk.nextStep, hfb, himm, hex]
      · intro hex
        simp [Disk.nextStep, hfb, himm, Nat.not_le.mpr hex]
  · intro hnone himm
    cases h : st.immediate with
    | nil => exact absurd h himm
    | cons front rest => simp [Disk.nextStep, hnone, h]
  · intro hnone himm
    simp [Disk.nextStep, hnone, himm]

/-- C5 witness: a scheduled timer with key (5, 1) against a front
immediate timer with key (3, 2): the immediate key is smaller, so
next_step picks the immediate action. -/
theorem next_step_selection_witness :
    Disk.nextStep ⟨[⟨3, 2, .pending, true⟩], [⟨5, 1, .scheduled, true⟩], [], 0⟩ 10 =
      .immediateAction :=
  (((next_step_selection ⟨[⟨3, 2, .pending, true⟩], [⟨5, 1, .scheduled, true⟩], [], 0⟩
      10).1 ⟨5, 1, .scheduled, true⟩ (by simp [Disk.minTimer])).1
    ⟨3, 2, .pending, true⟩ [] rfl (by decide)).2 (by decide)

/-- The countdown loop of take_immediate_action executes at most its
countdown many actions on top of those already accumulated. -/
theorem takeImmAux_length_le :
    ∀ (c : Nat) (st : Disk.St) (now : Nat) (acc : List Nat) r,
    Disk.takeImmAux c st now acc = some r → r.1.length ≤ c + acc.length := by
  intro c
  induction c with
  | zero =>
    intro st now acc r h
    simp [Disk.takeImmAux] at h
    subst h
    simp
  | succ n ih =>
    intro st now acc r h
    rw [Disk.takeImmAux] at h
    cases hp : Disk.popTimer st now with
    | none => rw [hp] at h; exact absurd h (by simp)
    | some p =>
      rw [hp] at h
      match p with
      | (.expired uid, st') =>
        simp at h
        have := ih st' now (uid :: acc) r h
        simp at this
        omega
      | (.nextExpiry e, st') =>
        simp at h
        subst h
        simp
      | (.wait, st') =>
        simp at h
        subst h
        simp

/-- C6: in every iteration of the do_loop body at most
MAX_IO_STARVATION = 20 immediate or due-timer actions run before the
poller is entered, and at most MAX_IO_BURST = 20 ready fds are
dispatched (the epoll event buffer has exactly 20 slots) before control
returns to the immediate actions. -/
theorem do_loop_starvation_bounds
    (st : Disk.St) (now : Nat) (ready : List Nat) (ran disp : List Nat)
    (st' : Disk.St) (h : Disk.doLoopIter st now ready = some (ran, disp, st')) :
    ran.length ≤ 20 ∧ disp.length ≤ 20 := by
  unfold Disk.doLoopIter at h
  cases ht : Disk.takeImmediate st now with
  | none => rw [ht] at h; exact absurd h (by simp)
  | some t =>
    rw [ht] at h
    match t with
    | (ran0, w, st0) =>
      simp only [Option.some.injEq, Prod.mk.injEq] at h
      obtain ⟨h1, h2, _⟩ := h
      constructor
      · have hb := takeImmAux_length_le Disk.MAX_IO_STARVATION st now [] (ran0, w, st0) ht
        simp [Disk.MAX_IO_STARVATION] at hb
        rw [← h1]
        omega
      · calc disp.length = ((ready.take Disk.MAX_IO_BURST).filter
              (· ∈ st0.regs)).length := by rw [← h2]
          _ ≤ (ready.take Disk.MAX_IO_BURST).length := List.length_filter_le _ _
          _ ≤ Disk.MAX_IO_BURST := by
              simp [List.length_take]
          _ = 20 := rfl

/-- C6 witness: an idle reactor iteration with three spuriously ready
fds runs zero actions and dispatches zero fds, within both bounds. -/
theorem do_loop_starvation_bounds_witness :
    ([] : List Nat).length ≤ 20 ∧ ([] : List Nat).length ≤ 20 :=
  do_loop_starvation_bounds ⟨[], [], [], 0⟩ 0 [1, 2, 3] [] [] ⟨[], [], [], 0⟩
    (by simp [Disk.doLoopIter, Disk.takeImmediate, Disk.takeImmAux,
              Disk.popTimer, Disk.nextStep, Disk.minTimer,
              Disk.MAX_IO_STARVATION, Disk.MAX_IO_BURST])

/-- C9: with begin > 0 and fewer than begin bytes skipped, a sub read
whose wrappee keeps answering Ok(0) never terminates: the skip loop adds
the zero count to the cursor and loops again, so no fuel suffices for
the call to return, and the premature EOF reaches the sub reader neither
as Ok(0) nor as an error.  Likewise the exhaust loop, entered past the
stop offset with exhaust set, never returns while the wrappee keeps
answering Ok. -/
theorem sub_premature_eof_never_returns :
    (∀ {σ : Type} (f : σ → Nat → RRes × σ),
      (∀ s n, (f s n).1 = .ok []) →
      ∀ (fuel : Nat) (st : Sub.St) (s : σ) (buflen : Nat),
      st.cursor < st.begin →
      Sub.subRead f fuel st s buflen = none) ∧
    (∀ {σ : Type} (g : σ → Nat → RRes × σ),
      (∀ s n, ∃ d s', g s n = (.ok d, s')) →
      ∀ (fuel : Nat) (st : Sub.St) (s : σ) (buflen : Nat) (e : Nat),
      st.stop = some e → e ≤ st.cursor → st.begin ≤ st.cursor →
      st.exhaust = true →
      Sub.subRead g fuel st s buflen = none) := by
  constructor
  · intro σ f hf fuel
    induction fuel with
    | zero => intro st s buflen _; rfl
    | succ n ih =>
      intro st s buflen hcur
      have hv := hf s (min buflen (st.begin - st.cursor))
      rcases hfs : f s (min buflen (st.begin - st.cursor)) with ⟨r, s'⟩
      rw [hfs] at hv
      simp only at hv
      subst hv
      simp only [Sub.subRead, hcur, if_true, hfs]
      exact ih st s' buflen hcur
  · intro σ g hg fuel
    induction fuel with
    | zero => intro st s buflen e _ _ _ _; rfl
    | succ n ih =>
      intro st s buflen e hstop hecur hbcur hex
      have hncur : ¬ st.cursor < st.begin := by omega
      have hnlt : ¬ st.cursor < e := by omega
      obtain ⟨d, s', hgs⟩ := hg s buflen
      simp only [Sub.subRead, hncur, if_false, hstop, hnlt, hex, if_true, hgs]
      exact ih st s' buflen e hstop hecur hbcur hex

/-- C9 witness: a wrappee stuck at EOF leaves a sub read with begin = 5
spinning in its skip loop, and a wrappee that keeps succeeding leaves a
sub read past its stop offset spinning in its exhaust loop. -/
theorem sub_premature_eof_never_returns_witness :
    Sub.subRead (fun (s : Unit) _ => (.ok [], s)) 3 ⟨5, none, false, 0⟩ () 4 = none ∧
    Sub.subRead (fun (s : Unit) _ => (.ok [], s)) 3 ⟨1, some 1, true, 1⟩ () 4 = none :=
  ⟨sub_premature_eof_never_returns.1 (fun _ _ => (.ok [], ()))
      (fun _ _ => rfl) 3 ⟨5, none, false, 0⟩ () 4 (by decide),
   sub_premature_eof_never_returns.2 (fun _ _ => (.ok [], ()))
      (fun _ _ => ⟨[], (), rfl⟩) 3 ⟨1, some 1, true, 1⟩ () 4 1 rfl
      (by decide) (by decide) rfl⟩

/-- C10: during the filling phase a reservoir read fails with the
no-space kind exactly when the byte total strictly exceeds the capacity;
the overflow test runs before each wrappee read, so the chunk that
pushes the total past the capacity is itself already appended to
storage when the error surfaces, and a total of exactly the capacity
never produces the error.  The wrappee is assumed not to report
no-space on its own behalf. -/
theorem reservoir_nospc_iff (cap amount : Nat) (storage : List (List Nat))
    (w : List RRes) (hinv : amount = storage.flatten.length)
    (hw : ∀ r ∈ w, r ≠ Except.error ErrKind.nospc) :
    ((Reservoir.resFill cap amount storage w).1 = .error .nospc ↔
      cap < (Reservoir.resFill cap amount storage w).2.1) ∧
    (Reservoir.resFill cap amount storage w).2.1 =
      (Reservoir.resFill cap amount storage w).2.2.1.flatten.length ∧
    (∃ extra, (Reservoir.resFill cap amount storage w).2.2.1 = storage ++ extra) ∧
    ((Reservoir.resFill cap amount storage w).2.1 = cap →
      (Reservoir.resFill cap amount storage w).1 ≠ .error .nospc) := by
  induction w generalizing amount storage with
  | nil =>
    unfold Reservoir.resFill
    by_cases hc : cap < amount
    · rw [if_pos hc]
      exact ⟨by simp [hc], hinv, ⟨[], by simp⟩,
             by intro h; simp at h; exact absurd hc (by omega)⟩
    · rw [if_neg hc]
      exact ⟨by simp [hc], hinv, ⟨[], by simp⟩, fun _ => by simp⟩
  | cons r rest ih =>
    unfold Reservoir.resFill
    by_cases hc : cap < amount
    · rw [if_pos hc]
      exact ⟨by simp [hc], hinv, ⟨[], by simp⟩,
             by intro h; simp at h; exact absurd hc (by omega)⟩
    · rw [if_neg hc]
      match r with
      | .ok [] =>
        exact ⟨by simp [hc], hinv, ⟨[], by simp⟩, fun _ => by simp⟩
      | .ok (b :: d) =>
        have hinv' : amount + (b :: d).length =
            (storage ++ [b :: d]).flatten.length := by
          simp [hinv]
        have hw' : ∀ x ∈ rest, x ≠ Except.error ErrKind.nospc :=
          fun x hx => hw x (List.mem_cons_of_mem _ hx)
        obtain ⟨h1, h2, ⟨extra, hextra⟩, h4⟩ :=
          ih (amount + (b :: d).length) (storage ++ [b :: d]) hinv' hw'
        exact ⟨h1, h2, ⟨(b :: d) :: extra,
               by simpa [List.append_assoc] using hextra⟩, h4⟩
      | .error e =>
        have hne : e ≠ .nospc := by
          intro he
          exact hw (.error e) (List.mem_cons_self _ _) (by rw [he])
        exact ⟨by simp [hc, hne], hinv, ⟨[], by simp⟩, fun _ => by simp [hne]⟩

/-- C10 witness: capacity 3, chunks of 2 and 2 bytes then EOF: the
second chunk lifts the total to 4 > 3 and is stored before the no-space
error surfaces; with capacity 4 the same wrappee fills the reservoir to
exactly the capacity without an error. -/
theorem reservoir_nospc_iff_witness :
    ((Reservoir.resFill 3 0 [] [.ok [1, 2], .ok [3, 4], .ok []]).1 =
       .error .nospc ↔
     3 < (Reservoir.resFill 3 0 [] [.ok [1, 2], .ok [3, 4], .ok []]).2.1) ∧
    (Reservoir.resFill 3 0 [] [.ok [1, 2], .ok [3, 4], .ok []]).2.1 =
      (Reservoir.resFill 3 0 [] [.ok [1, 2], .ok [3, 4], .ok []]).2.2.1.flatten.length ∧
    (∃ extra, (Reservoir.resFill 3 0 [] [.ok [1, 2], .ok [3, 4], .ok []]).2.2.1 =
      [] ++ extra) ∧
    ((Reservoir.resFill 3 0 [] [.ok [1, 2], .ok [3, 4], .ok []]).2.1 = 3 →
      (Reservoir.resFill 3 0 [] [.ok [1, 2], .ok [3, 4], .ok []]).1 ≠
        .error .nospc) :=
  reservoir_nospc_iff 3 0 [] [.ok [1, 2], .ok [3, 4], .ok []] rfl
    (by intro r hr; fin_cases hr <;> simp)

/-- C4 counterexample: an avid read over a wrappee that yields one byte,
then a protocol error, then EOF: the first read returns the partial
count Ok(1) and consumes (drops) the error, the second read returns EOF,
and every further read yields EAGAIN from the exhausted wrappee — the
protocol error is never surfaced to the avid caller, on this read or any
subsequent one. -/
theorem avid_error_after_progress_swallowed :
    Avid.avidRead [.ok [42], .error .proto, .ok []] 2 = (.ok 1, [.ok []]) ∧
    Avid.avidRead [.ok []] 2 = (.ok 0, []) ∧
    Avid.avidRead [] 2 = (.error .again, []) := by
  refine ⟨?_, ?_, ?_⟩ <;>
    simp [Avid.avidRead, Avid.avidLoop, wsRead]

/-- C4 amended: an avid read stops with the partial count when the
wrappee reports EOF or any error — EAGAIN or not — after at least one
byte of progress, and the error value itself is dropped (the wrappee
entry is consumed and only the count is returned); an error with no
prior progress is surfaced unchanged. -/
theorem avid_read_spec (w w2 w3 : List RRes) (buflen : Nat) (d : List Nat)
    (e : ErrKind) :
    (0 < buflen → wsRead w buflen = (.error e, w2) →
      Avid.avidRead w buflen = (.error e, w2)) ∧
    (wsRead w buflen = (.ok d, w2) → d ≠ [] → d.length < buflen →
      wsRead w2 (buflen - d.length) = (.error e, w3) →
      Avid.avidRead w buflen = (.ok d.length, w3)) ∧
    (wsRead w buflen = (.ok d, w2) → d ≠ [] → d.length < buflen →
      wsRead w2 (buflen - d.length) = (.ok [], w3) →
      Avid.avidRead w buflen = (.ok d.length, w3)) := by
  refine ⟨?_, ?_, ?_⟩
  · intro hb hw
    unfold Avid.avidRead
    rw [Avid.avidLoop]
    simp only [hb, if_true, Nat.sub_zero, hw]
    simp
  · intro hw hd hlen hw2
    obtain ⟨b, d', hbd⟩ : ∃ b d', d = b :: d' := by
      cases d with
      | nil => exact absurd rfl hd
      | cons b d' => exact ⟨b, d', rfl⟩
    subst hbd
    have hb : 0 < buflen := by
      have := (b :: d').length
      simp at hlen
      omega
    unfold Avid.avidRead
    rw [Avid.avidLoop]
    simp only [hb, if_true, Nat.sub_zero, hw]
    rw [Avid.avidLoop]
    simp only [Nat.zero_add, hlen, if_true, hw2]
    simp
  · intro hw hd hlen hw2
    obtain ⟨b, d', hbd⟩ : ∃ b d', d = b :: d' := by
      cases d with
      | nil => exact absurd rfl hd
      | cons b d' => exact ⟨b, d', rfl⟩
    subst hbd
    have hb : 0 < buflen := by
      simp at hlen
      omega
    unfold Avid.avidRead
    rw [Avid.avidLoop]
    simp only [hb, if_true, Nat.sub_zero, hw]
    rw [Avid.avidLoop]
    simp only [Nat.zero_add, hlen, if_true, hw2]

/-- C4 amended witness: the concrete script of the counterexample
instantiates all three conjuncts of the amended description. -/
theorem avid_read_spec_witness :
    Avid.avidRead [.error .proto, .ok []] 2 = (.error .proto, [.ok []]) ∧
    Avid.avidRead [.ok [42], .error .proto, .ok []] 2 = (.ok 1, [.ok []]) ∧
    Avid.avidRead [.ok [42], .ok [], .ok []] 2 = (.ok 1, [.ok []]) :=
  ⟨(avid_read_spec [.error .proto, .ok []] [.ok []] [.ok []] 2 [] .proto).1
      (by decide) rfl,
   (avid_read_spec [.ok [42], .error .proto, .ok []] [.error .proto, .ok []]
      [.ok []] 2 [42] .proto).2.1 rfl (by decide) (by decide) rfl,
   (avid_read_spec [.ok [42], .ok [], .ok []] [.ok [], .ok []]
      [.ok []] 2 [42] .proto).2.2 rfl (by decide) (by decide) rfl⟩

/-- C8: each nontrivial pacer read first credits quota by
(now - prev) * byterate and clamps it at max_burst (the if of the source
equals the min); below min_burst it schedules a retry timer at
now + (min_burst - quota) / byterate and returns EAGAIN; otherwise it
reads at most min(buflen, quota as usize) bytes from the wrappee and
debits quota by the count actually read.  Construction with
byterate ≤ 0, min_burst < 1 (that is, zero) or max_burst < min_burst is
rejected with the invalid kind.  The f64 arithmetic of the source is
modelled exactly over ℚ. -/
theorem pacer_read_spec (st : Pacer.St) (now : ℚ) (w : List RRes)
    (buflen : Nat) :
    ((if st.quota + (now - st.prevTime) * st.byterate > st.maxBurst
        then st.maxBurst
        else st.quota + (now - st.prevTime) * st.byterate) =
      min (st.quota + (now - st.prevTime) * st.byterate) st.maxBurst) ∧
    (min (st.quota + (now - st.prevTime) * st.byterate) st.maxBurst <
        st.minBurst →
      Pacer.pacerRead st now w buflen =
        (.error .again,
         { st with
             quota := min (st.quota + (now - st.prevTime) * st.byterate)
               st.maxBurst,
             prevTime := now,
             retryAt := some (now +
               (st.minBurst -
                 min (st.quota + (now - st.prevTime) * st.byterate)
                   st.maxBurst) / st.byterate) }, w)) ∧
    (st.minBurst ≤
        min (st.quota + (now - st.prevTime) * st.byterate) st.maxBurst →
      ∀ dd w', wsRead w (min buflen
          (⌊min (st.quota + (now - st.prevTime) * st.byterate)
              st.maxBurst⌋.toNat)) = (.ok dd, w') →
      Pacer.pacerRead st now w buflen =
        (.ok dd.length,
         { st with
             quota := min (st.quota + (now - st.prevTime) * st.byterate)
               st.maxBurst - (dd.length : ℚ),
             prevTime := now, retryAt := none }, w')) ∧
    (∀ (br : ℚ) (mb xb : Nat) (t : ℚ),
      Pacer.pacerNew br mb xb t = .error .inval ↔
        (br ≤ 0 ∨ mb = 0 ∨ xb < mb)) := by
  have hmin : (if st.quota + (now - st.prevTime) * st.byterate > st.maxBurst
      then st.maxBurst
      else st.quota + (now - st.prevTime) * st.byterate) =
      min (st.quota + (now - st.prevTime) * st.byterate) st.maxBurst := by
    split_ifs with h
    · exact (min_eq_right h.le).symm
    · exact (min_eq_left (not_lt.mp h)).symm
  refine ⟨hmin, ?_, ?_, ?_⟩
  · intro h
    simp only [Pacer.pacerRead, hmin]
    rw [if_pos h]
  · intro h dd w' hws
    simp only [Pacer.pacerRead, hmin]
    rw [if_neg (not_lt.mpr h), hws]
  · intro br mb xb t
    unfold Pacer.pacerNew
    split_ifs with hcond
    · simp only [Nat.lt_one_iff] at hcond
      simp [hcond]
    · simp only [Nat.lt_one_iff] at hcond
      simp [hcond]

/-- C8 witness: with byterate 1000 B/s, min_burst 100, max_burst 1000,
half a second of credit yields quota 500, a read of 3 of up to 8 bytes
succeeds and debits the quota to 497; constructing a pacer with a
negative byterate is rejected with the invalid kind. -/
theorem pacer_read_spec_witness :
    Pacer.pacerRead ⟨0, 1000, 100, 1000, 0, none⟩ (1/2) [.ok [1, 2, 3]] 8 =
      (.ok 3, ⟨497, 1000, 100, 1000, 1/2, none⟩, []) ∧
    Pacer.pacerNew (-1) 1 2 0 = .error .inval := by
  constructor
  · have h := (pacer_read_spec ⟨0, 1000, 100, 1000, 0, none⟩ (1/2)
      [.ok [1, 2, 3]] 8).2.2.1
    have hq : ((⟨0, 1000, 100, 1000, 0, none⟩ : Pacer.St).minBurst : ℚ) ≤
        min ((0 : ℚ) + ((1/2 : ℚ) - 0) * 1000) 1000 := by norm_num
    have hws : wsRead [.ok [1, 2, 3]]
        (min 8 (⌊min ((0 : ℚ) + ((1/2 : ℚ) - 0) * 1000) 1000⌋.toNat)) =
        (.ok [1, 2, 3], []) := by norm_num [wsRead]
    have h2 := h hq [1, 2, 3] [] hws
    rw [h2]
    norm_num
  · exact ((pacer_read_spec ⟨0, 1000, 100, 1000, 0, none⟩ 0 [] 0).2.2.2
      (-1) 1 2 0).mpr (Or.inl (by norm_num))

end Aten
